import Mathlib

/-!
Verification of the battery-health pipeline (load_data.py / process_data.py).

All numeric values are modelled as rationals; machine floats of the source are
embedded as exact rational arithmetic.  Tabular data is modelled as lists of
rows; fallible operations return `Option` or `Except String`.
-/

/-! ## Health stage (process_data.py) -/

/-- One row of a per-cycle discharge table, with the columns the health stage
reads (`Voltage_measured`, `Current_measured`, `Temperature_measured`, `Time`). -/
structure DRow where
  Voltage_measured : ℚ
  Current_measured : ℚ
  Temperature_measured : ℚ
  Time : ℚ
deriving DecidableEq, Inhabited

/-- Configuration of `compute_battery_health` (source defaults:
`num_bins=20`, `nominal_capacity=2.0`, `min_capacity=1.4`,
`disc_cutoff_voltage=2.7`). -/
structure HealthConfig where
  num_bins : ℕ
  nominal_capacity : ℚ
  min_capacity : ℚ
  disc_cutoff_voltage : ℚ

/-- Positional index of the first row whose measured voltage is below the
cutoff; models `df[df['Voltage_measured'] < v].index.min()` (a fresh
`RangeIndex`, so label = position; `none` models the NaN of an empty
selection). -/
def firstIdxBelow (cutoff : ℚ) : List DRow → Option ℕ
  | [] => none
  | r :: rest =>
    if r.Voltage_measured < cutoff then some 0
    else (firstIdxBelow cutoff rest).map (· + 1)

/-- Model of `trimmed_df = df if pd.isna(cutoff_idx) else df.iloc[:cutoff_idx]`. -/
def trim (cutoff : ℚ) (df : List DRow) : List DRow :=
  match firstIdxBelow cutoff df with
  | none => df
  | some i => df.take i

/-- Model of `Series.diff().fillna(0)`: first element 0, then successive differences. -/
def diffs0 : List ℚ → List ℚ
  | [] => []
  | t :: rest => 0 :: List.zipWith (fun a b => a - b) rest (t :: rest)

/-- The elapsed-time column `Time.diff().fillna(0) / 3600`, in hours. -/
def timeDiffHr (ts : List ℚ) : List ℚ :=
  (diffs0 ts).map (fun d => d / 3600)

/-- The incremental charge-transfer column: measured current times elapsed hours. -/
def deltaQs (rows : List DRow) : List ℚ :=
  List.zipWith (fun r dt => r.Current_measured * dt) rows (timeDiffHr (rows.map DRow.Time))

/-- Cycle capacity: absolute value of the summed incremental charge transfer. -/
def cycleCapacity (rows : List DRow) : ℚ := |(deltaQs rows).sum|

/-- Running cumulative sum starting from `acc` (`Series.cumsum`). -/
def cumsumFrom (acc : ℚ) : List ℚ → List ℚ
  | [] => []
  | x :: xs => (acc + x) :: cumsumFrom (acc + x) xs

/-- Cumulative charge transfer, `Delta_Q.cumsum()`. -/
def cumsum (l : List ℚ) : List ℚ := cumsumFrom 0 l

/-- Per-sample state of charge: one plus cumulative transfer over capacity, times 100. -/
def socs (rows : List DRow) : List ℚ :=
  (cumsum (deltaQs rows)).map (fun c => (1 + c / cycleCapacity rows) * 100)

/-- One row of the health feature dataset. -/
structure HealthSample where
  Voltage_measured : ℚ
  Current_measured : ℚ
  Temperature_measured : ℚ
  SoC : ℚ
  cycle_number : ℕ
  battery_id : String
  SoH : ℚ
deriving DecidableEq

/-- The trimmed series with the per-row feature columns
(`battery_id`, `cycle_number`, `SoC`, `SoH`) attached. -/
def augment (battery_id : String) (cycle_number : ℕ) (soh : ℚ)
    (rows : List DRow) : List HealthSample :=
  List.zipWith
    (fun (r : DRow) (soc : ℚ) =>
      ⟨r.Voltage_measured, r.Current_measured, r.Temperature_measured,
        soc, cycle_number, battery_id, soh⟩)
    rows (socs rows)

/-- `Series.mean()` on a rational column. -/
def meanQ (l : List ℚ) : ℚ := l.sum / (l.length : ℚ)

/-- Aggregation of one bin: `none` for an empty bin (the `if b.empty: continue`
branch), otherwise the row of column means with `cycle_number`, `battery_id`,
`SoH` taken from the bin's first row. -/
def aggBin : List HealthSample → Option HealthSample
  | [] => none
  | h :: t =>
    some ⟨meanQ ((h :: t).map HealthSample.Voltage_measured),
          meanQ ((h :: t).map HealthSample.Current_measured),
          meanQ ((h :: t).map HealthSample.Temperature_measured),
          meanQ ((h :: t).map HealthSample.SoC),
          h.cycle_number, h.battery_id, h.SoH⟩

/-- Sizes of the `k` sections of `numpy.array_split` on `n` rows: the first
`n % k` sections get `n / k + 1` rows, the rest `n / k`. -/
def splitSizes (n k : ℕ) : List ℕ :=
  (List.range k).map (fun i => n / k + if i < n % k then 1 else 0)

/-- Cut a list into consecutive chunks of the given sizes. -/
def takeDrops {α : Type} : List ℕ → List α → List (List α)
  | [], _ => []
  | s :: ss, l => l.take s :: takeDrops ss (l.drop s)

/-- `numpy.array_split(l, k)`. -/
def array_split {α : Type} (l : List α) (k : ℕ) : List (List α) :=
  takeDrops (splitSizes l.length k) l

/-- The per-cycle body of `compute_battery_health`: trims the series, computes
capacity, and either produces the cycle's binned `HealthSample` group
(`some`, appended to `processed_dfs`) or drops the cycle (`none`). -/
def processCycleHealth (cfg : HealthConfig) (battery_id : String) (cycle_number : ℕ)
    (df : List DRow) : Option (List HealthSample) :=
  let trimmed_df := trim cfg.disc_cutoff_voltage df
  let capacity := cycleCapacity trimmed_df
  if cfg.min_capacity < capacity then
    let soh := capacity / cfg.nominal_capacity * 100
    let hrows := augment battery_id cycle_number soh trimmed_df
    let agg_rows := (array_split hrows cfg.num_bins).filterMap aggBin
    if agg_rows.length = cfg.num_bins then some agg_rows else none
  else none

/-- One iteration unit of the driver loop: a metadata row's filename together
with the outcome of loading its cycle table (`Except.error` models any raised
exception while loading or processing that cycle). -/
structure CycleEntry where
  filename : String
  battery_id : String
  cycle_number : ℕ
  table : Except String (List DRow)

/-- The accepted per-cycle groups, in metadata row order (`processed_dfs`). -/
def acceptedGroups (cfg : HealthConfig) (entries : List CycleEntry) :
    List (List HealthSample) :=
  entries.filterMap (fun e =>
    match e.table with
    | .error _ => none
    | .ok df => processCycleHealth cfg e.battery_id e.cycle_number df)

/-- The diagnostics printed by the `except` branch, one per failing cycle. -/
def errorLogs (entries : List CycleEntry) : List String :=
  entries.filterMap (fun e =>
    match e.table with
    | .error msg => some ("Error processing " ++ e.filename ++ ": " ++ msg)
    | .ok _ => none)

/-- Observable outcome of `compute_battery_health`: the error diagnostics, the
health dataset artifact (`none` = no file written), and the final console
message. -/
structure HealthOut where
  logs : List String
  artifact : Option (List HealthSample)
  message : String

/-- Driver of the health stage: per-cycle errors are caught and logged, the
artifact is written only when some group was accepted, and the empty outcome
is reported with a distinct message. -/
def compute_battery_health (cfg : HealthConfig) (output_path : String)
    (entries : List CycleEntry) : HealthOut :=
  let processed_dfs := acceptedGroups cfg entries
  if processed_dfs.isEmpty then
    ⟨errorLogs entries, none, "No valid files found!"⟩
  else
    ⟨errorLogs entries, some processed_dfs.flatten,
      "Saved processed dataset to " ++ output_path⟩

/-! ## Extraction stage (load_data.py) -/

/-- One component of a MATLAB date vector: a numeric value, or something a
`:.0f` format would raise on. -/
inductive MValue where
  | num (q : ℚ)
  | other
deriving DecidableEq

/-- The `cycle["time"][0]` argument of `format_matlab_time`: after the
`ndarray → list` conversion it is either a list or some non-list value. -/
inductive MatlabTime where
  | ofList (l : List MValue)
  | nonList
deriving DecidableEq

/-- Floor of a rational, computed on numerator and denominator. -/
def ratFloor (q : ℚ) : ℤ := Int.fdiv q.num (q.den : ℤ)

/-- Round to the nearest integer, ties to even (the rounding of Python's
fixed-point format). -/
def roundHalfEven (q : ℚ) : ℤ :=
  let f := ratFloor q
  let r := q - (f : ℚ)
  if r < 1 / 2 then f
  else if 1 / 2 < (r : ℚ) then f + 1
  else if f % 2 = 0 then f else f + 1

/-- Zero-pad a fractional part to 3 digits. -/
def pad3 (k : ℕ) : String :=
  if k < 10 then "00" ++ toString k
  else if k < 100 then "0" ++ toString k
  else toString k

/-- Python `f"{q:.0f}"` on an exact rational. -/
def fmtFixed0 (q : ℚ) : String := toString (roundHalfEven q)

/-- Python `f"{q:.3f}"` on an exact rational. -/
def fmtFixed3 (q : ℚ) : String :=
  let n := roundHalfEven (q * 1000)
  let sign := if n < 0 then "-" else ""
  let m := n.natAbs
  sign ++ toString (m / 1000) ++ "." ++ pad3 (m % 1000)

/-- Format one of the first five components; `none` models the exception a
non-numeric value raises inside the f-string. -/
def fmtComp0 : MValue → Option String
  | .num q => some (fmtFixed0 q)
  | .other => none

/-- Format the sixth component with 3 decimal digits; `none` models the
exception on a non-numeric value. -/
def fmtComp3 : MValue → Option String
  | .num q => some (fmtFixed3 q)
  | .other => none

/-- `format_matlab_time`: the bracketed dot-separated rendering of a 6-component
numeric vector, and the sentinel `"[]"` for every other input (non-list, wrong
length, or a component the format raises on). -/
def format_matlab_time : MatlabTime → String
  | .nonList => "[]"
  | .ofList l =>
    match l with
    | [v0, v1, v2, v3, v4, v5] =>
      match fmtComp0 v0, fmtComp0 v1, fmtComp0 v2, fmtComp0 v3, fmtComp0 v4, fmtComp3 v5 with
      | some s0, some s1, some s2, some s3, some s4, some s5 =>
        "[" ++ s0 ++ ". " ++ s1 ++ ". " ++ s2 ++ ". " ++ s3 ++ ". " ++ s4 ++ ". " ++ s5 ++ "]"
      | _, _, _, _, _, _ => "[]"
    | _ => "[]"

/-- Is the input a list of exactly 6 numeric components? (The inputs on which
`format_matlab_time` does not degrade to the sentinel.) -/
def isSixNums : MatlabTime → Bool
  | .nonList => false
  | .ofList l =>
    l.length == 6 && l.all (fun v => match v with | .num _ => true | .other => false)

/-- One raw cycle record: its type string, start-time vector, ambient
temperature, and the `data` container (`hasData = false` models a cycle whose
`dtype.names` lacks the `data` field; `data name = none` models a field name
absent from `data.dtype.names`). -/
structure RawCycle where
  type : String
  time : MatlabTime
  ambient_temperature : ℚ
  hasData : Bool
  data : String → Option (List ℚ)

/-- A cell of a persisted cycle table: a numeric value or the empty-string
padding sentinel. -/
inductive Cell where
  | num (q : ℚ)
  | pad
deriving DecidableEq

/-- Declared field list for charge cycles. -/
def charge_fields : List String :=
  ["Voltage_measured", "Current_measured", "Temperature_measured",
   "Current_charge", "Voltage_charge", "Time"]

/-- Declared field list for discharge cycles. -/
def discharge_fields : List String :=
  ["Voltage_measured", "Current_measured", "Temperature_measured",
   "Current_load", "Voltage_load", "Time"]

/-- Declared field list for impedance cycles. -/
def impedance_fields : List String :=
  ["Sense_current", "Battery_current", "Current_ratio",
   "Battery_impedance", "Rectified_Impedance"]

/-- The type-dispatch of `process_cycle_data`; `none` is the unknown-type skip. -/
def fieldsFor (cycle_type : String) : Option (List String) :=
  if cycle_type = "charge" then some charge_fields
  else if cycle_type = "discharge" then some discharge_fields
  else if cycle_type = "impedance" then some impedance_fields
  else none

/-- Build `data_dict` and pad each column with the empty-string sentinel up to
the maximum column length, in declared field order. -/
def rectangularize (data : String → Option (List ℚ)) (fields : List String) :
    List (String × List Cell) :=
  let data_dict := fields.map (fun name => (name, (data name).getD []))
  let max_len := data_dict.foldl (fun m p => max m p.2.length) 0
  data_dict.map
    (fun p => (p.1, p.2.map Cell.num ++ List.replicate (max_len - p.2.length) Cell.pad))

/-- `process_cycle_data`: `none` when the cycle is skipped (missing `data`
container or unknown type, in source order), otherwise the rectangular table
that is written to the cycle's CSV file. -/
def process_cycle_data (cycle : RawCycle) (cycle_type : String) :
    Option (List (String × List Cell)) :=
  if cycle.hasData = false then none
  else
    match fieldsFor cycle_type with
    | none => none
    | some fields => some (rectangularize cycle.data fields)

/-- A metadata scalar: a numeric value or the empty sentinel. -/
inductive MetaVal where
  | num (q : ℚ)
  | empty
deriving DecidableEq

/-- One row of `metadata.csv`, with the source's column list. -/
structure MetadataRow where
  type : String
  start_time : String
  ambient_temperature : ℚ
  battery_id : String
  test_id : ℕ
  uid : ℕ
  filename : String
  Capacity : MetaVal
  Re : MetaVal
  Rct : MetaVal
deriving DecidableEq

/-- The guarded first-value extraction
`cycle["data"][field][0, 0].flatten()[0] if cycle_type == want and field in
cycle["data"].dtype.names else ""`.  Accessing `cycle["data"]` on a record
without a `data` field raises, as does `[0]` on an empty array. -/
def firstFieldVal (cycle : RawCycle) (want : String) (field : String) :
    Except String MetaVal :=
  if cycle.type = want then
    if cycle.hasData = false then .error "no field of name data"
    else
      match cycle.data field with
      | none => .ok .empty
      | some [] => .error "index 0 is out of bounds"
      | some (x :: _) => .ok (.num x)
  else .ok .empty

/-- Zero-pad a number to width 5 decimal digits. -/
def pad5 (n : ℕ) : String :=
  if n < 10 then "0000" ++ toString n
  else if n < 100 then "000" ++ toString n
  else if n < 1000 then "00" ++ toString n
  else if n < 10000 then "0" ++ toString n
  else toString n

/-- The persisted table name: width-5 zero-padded counter plus the csv extension. -/
def fileNumber (file_id : ℕ) : String := pad5 file_id ++ ".csv"

/-- One iteration of the loop body of `process_metadata_and_cycles`: the
optional table artifact (skipped cycles write none) and the metadata row that
is appended unconditionally.  `Except.error` models the exception raised by the
capacity / Re / Rct extraction, in source evaluation order. -/
def processCycleExtract (battery_id : String) (test_id file_id : ℕ)
    (cycle : RawCycle) :
    Except String (Option (String × List (String × List Cell)) × MetadataRow) :=
  let cycle_type := cycle.type
  let start_time := format_matlab_time cycle.time
  let file_number := fileNumber file_id
  let table := process_cycle_data cycle cycle_type
  match firstFieldVal cycle "discharge" "Capacity",
        firstFieldVal cycle "impedance" "Re",
        firstFieldVal cycle "impedance" "Rct" with
  | .error e, _, _ => .error e
  | _, .error e, _ => .error e
  | _, _, .error e => .error e
  | .ok capacity, .ok re, .ok rct =>
    .ok (table.map (fun t => (file_number, t)),
      ⟨cycle_type, start_time, cycle.ambient_temperature, battery_id,
        test_id, file_id, file_number, capacity, re, rct⟩)

/-- The `for i in range(cycle_data.shape[1])` loop: threads `test_id` and the
global `file_id`, collecting written tables and `cycle_info` rows. -/
def processCyclesLoop (battery_id : String) :
    List RawCycle → ℕ → ℕ →
    Except String (List (String × List (String × List Cell)) × List MetadataRow × ℕ)
  | [], _, file_id => .ok ([], [], file_id)
  | c :: rest, test_id, file_id =>
    match processCycleExtract battery_id test_id file_id c with
    | .error e => .error e
    | .ok (tbl, row) =>
      match processCyclesLoop battery_id rest (test_id + 1) (file_id + 1) with
      | .error e => .error e
      | .ok (fs, rows, fid) => .ok (tbl.toList ++ fs, row :: rows, fid)

/-- Persistent state threaded through extraction: the module-level `file_id`
counter, the cycle-table files written so far, and the metadata artifact
(`none` = `metadata.csv` does not exist; the `ℕ` counts headers written). -/
structure ExtractState where
  file_id : ℕ
  files : List (String × List (String × List Cell))
  metadata : Option (ℕ × List MetadataRow)

/-- Appending `cycle_info` to the metadata artifact in append mode, with a header
only when the artifact does not yet exist (so creating the file writes one
header and appending to an existing file writes none). -/
def appendMetadata (artifact : Option (ℕ × List MetadataRow))
    (rows : List MetadataRow) : Option (ℕ × List MetadataRow) :=
  match artifact with
  | none => some (1, rows)
  | some (h, old) => some (h, old ++ rows)

/-- Extraction for one battery: runs the cycle loop from `test_id = 0` and the
current global `file_id`, then appends `cycle_info` to the metadata artifact. -/
def process_metadata_and_cycles (cycle_data : List RawCycle) (battery_id : String)
    (st : ExtractState) : Except String ExtractState :=
  match processCyclesLoop battery_id cycle_data 0 st.file_id with
  | .error e => .error e
  | .ok (fs, cycle_info, fid) =>
    .ok ⟨fid, st.files ++ fs, appendMetadata st.metadata cycle_info⟩

/-- Process the batteries of a corpus in order, threading the extraction state. -/
def runExtractionFrom :
    List (String × List RawCycle) → ExtractState → Except String ExtractState
  | [], st => .ok st
  | (battery_id, cycles) :: rest, st =>
    match process_metadata_and_cycles cycles battery_id st with
    | .error e => .error e
    | .ok st' => runExtractionFrom rest st'

/-- One program run of `load_data.py` over a corpus, starting from a possibly
pre-existing metadata artifact: the module-level `file_id = 1` is re-executed,
so every run starts its counter at 1. -/
def runExtraction (corpus : List (String × List RawCycle))
    (metadata : Option (ℕ × List MetadataRow)) : Except String ExtractState :=
  runExtractionFrom corpus ⟨1, [], metadata⟩

/-! ## Helper lemmas -/

lemma diffs0_length (ts : List ℚ) : (diffs0 ts).length = ts.length := by
  cases ts with
  | nil => rfl
  | cons t rest => simp [diffs0]

lemma timeDiffHr_length (ts : List ℚ) : (timeDiffHr ts).length = ts.length := by
  simp [timeDiffHr, diffs0_length]

lemma deltaQs_length (rows : List DRow) : (deltaQs rows).length = rows.length := by
  simp [deltaQs, timeDiffHr_length]

lemma cumsumFrom_length (acc : ℚ) (l : List ℚ) :
    (cumsumFrom acc l).length = l.length := by
  induction l generalizing acc with
  | nil => rfl
  | cons x xs ih => simp [cumsumFrom, ih]

lemma socs_length (rows : List DRow) : (socs rows).length = rows.length := by
  simp [socs, cumsum, cumsumFrom_length, deltaQs_length]

lemma augment_length (battery_id : String) (cycle_number : ℕ) (soh : ℚ)
    (rows : List DRow) :
    (augment battery_id cycle_number soh rows).length = rows.length := by
  simp [augment, socs_length]

lemma zipWith_getD {α β γ : Type} (f : α → β → γ) (as : List α) (bs : List β)
    (i : ℕ) (da : α) (db : β) (dc : γ) (ha : i < as.length) (hb : i < bs.length) :
    (List.zipWith f as bs).getD i dc = f (as.getD i da) (bs.getD i db) := by
  induction as generalizing bs i with
  | nil => simp at ha
  | cons a as ih =>
    cases bs with
    | nil => simp at hb
    | cons b bs =>
      cases i with
      | zero => rfl
      | succ j =>
        simp only [List.zipWith_cons_cons, List.getD_cons_succ]
        exact ih bs j (by simpa using ha) (by simpa using hb)

lemma map_getD {α β : Type} (f : α → β) (l : List α) (i : ℕ) (d : α) (db : β)
    (h : i < l.length) : (l.map f).getD i db = f (l.getD i d) := by
  induction l generalizing i with
  | nil => simp at h
  | cons x xs ih =>
    cases i with
    | zero => rfl
    | succ j =>
      simp only [List.map_cons, List.getD_cons_succ]
      exact ih j (by simpa using h)

lemma diffs0_getD (ts : List ℚ) (i : ℕ) (h : i < ts.length) :
    (diffs0 ts).getD i 0 = if i = 0 then 0 else ts.getD i 0 - ts.getD (i - 1) 0 := by
  cases ts with
  | nil => simp at h
  | cons t rest =>
    cases i with
    | zero => rfl
    | succ j =>
      simp only [diffs0, List.getD_cons_succ, Nat.succ_ne_zero, if_false,
        Nat.add_sub_cancel]
      rw [zipWith_getD (fun a b => a - b) rest (t :: rest) j 0 0 0
        (by simpa using h) (by simp; exact Nat.lt_succ_of_lt (by simpa using h))]

/-- The elapsed-hours delta the spec describes: 0 for the first sample, else
the difference of consecutive timestamps divided by 3600. -/
def specDelta (ts : List ℚ) (i : ℕ) : ℚ :=
  if i = 0 then 0 else (ts.getD i 0 - ts.getD (i - 1) 0) / 3600

lemma list_sum_getD (l : List ℚ) :
    l.sum = ∑ i in Finset.range l.length, l.getD i 0 := by
  induction l with
  | nil => simp
  | cons x xs ih =>
    rw [List.sum_cons, ih, List.length_cons, Finset.sum_range_succ']
    simp [List.getD_cons_succ, List.getD_cons_zero, add_comm]

lemma deltaQs_getD (rows : List DRow) (i : ℕ) (h : i < rows.length) :
    (deltaQs rows).getD i 0 =
      (rows.getD i default).Current_measured * specDelta (rows.map DRow.Time) i := by
  unfold deltaQs
  rw [zipWith_getD _ rows _ i default 0 0 h (by rw [timeDiffHr_length]; simpa using h)]
  unfold timeDiffHr specDelta
  rw [map_getD _ _ i 0 0 (by rw [diffs0_length]; simpa using h)]
  rw [diffs0_getD _ i (by simpa using h)]
  split_ifs with h0
  · simp
  · rfl

lemma deltaQs_sum (rows : List DRow) :
    (deltaQs rows).sum = ∑ i in Finset.range rows.length,
      (rows.getD i default).Current_measured * specDelta (rows.map DRow.Time) i := by
  rw [list_sum_getD, deltaQs_length]
  exact Finset.sum_congr rfl (fun i hi => deltaQs_getD rows i (Finset.mem_range.mp hi))

lemma trim_eq_takeWhile (cutoff : ℚ) (df : List DRow) :
    trim cutoff df = df.takeWhile (fun r => !decide (r.Voltage_measured < cutoff)) := by
  induction df with
  | nil => rfl
  | cons r rest ih =>
    by_cases h : r.Voltage_measured < cutoff
    · simp [trim, firstIdxBelow, h]
    · have hstep : trim cutoff (r :: rest) = r :: trim cutoff rest := by
        simp only [trim, firstIdxBelow, if_neg h]
        cases hf : firstIdxBelow cutoff rest <;> simp
      rw [hstep, ih]
      simp [List.takeWhile_cons, h]

lemma takeWhile_all {α : Type} (p : α → Bool) (l : List α)
    (h : ∀ x ∈ l, p x = true) : l.takeWhile p = l := by
  induction l with
  | nil => rfl
  | cons x xs ih =>
    rw [List.takeWhile_cons, if_pos (h x (by simp))]
    rw [ih (fun y hy => h y (by simp [hy]))]

/-! ## Claim C4: truncation at the cutoff voltage -/

/-- Claim C4: for every discharge series, truncation keeps exactly the prefix of
rows strictly before the first row whose measured voltage is below
`cutoff_voltage` (the longest prefix on which the voltage is not below the
cutoff); if no row is below the cutoff, the trimmed series equals the full
series and in particular keeps its length. -/
theorem C4_truncation (cutoff : ℚ) (df : List DRow) :
    trim cutoff df = df.takeWhile (fun r => !decide (r.Voltage_measured < cutoff)) ∧
    ((∀ r ∈ df, ¬ r.Voltage_measured < cutoff) →
      (trim cutoff df).length = df.length ∧ trim cutoff df = df) := by
  refine ⟨trim_eq_takeWhile cutoff df, fun hall => ?_⟩
  have heq : trim cutoff df = df := by
    rw [trim_eq_takeWhile]
    exact takeWhile_all _ df (fun r hr => by simp [hall r hr])
  exact ⟨by rw [heq], heq⟩

/-- Concrete discharge series in which no voltage is below the default cutoff. -/
def rowsHighV : List DRow := [⟨4, -2, 25, 0⟩, ⟨35/10, -2, 25, 3600⟩]

/-- Witness for C4 at a concrete series that never drops below the cutoff. -/
theorem C4_truncation_witness :
    (trim (27/10) rowsHighV).length = rowsHighV.length ∧
      trim (27/10) rowsHighV = rowsHighV :=
  (C4_truncation (27/10) rowsHighV).2 (by
    intro r hr
    simp only [rowsHighV, List.mem_cons, List.not_mem_nil, or_false] at hr
    rcases hr with rfl | rfl <;> norm_num)

/-! ## Claim C3: capacity is the integral of current over elapsed hours -/

/-- Claim C3: the capacity computed for a discharge cycle equals the absolute
value of the sum, over the trimmed series, of measured current times the
elapsed-time delta in hours with the first delta 0; and a cycle whose
capacity is at most `min_capacity` contributes no health rows. -/
theorem C3_capacity_integral (cfg : HealthConfig) (battery_id : String)
    (cycle_number : ℕ) (df : List DRow) :
    cycleCapacity (trim cfg.disc_cutoff_voltage df) =
      |∑ i in Finset.range (trim cfg.disc_cutoff_voltage df).length,
        ((trim cfg.disc_cutoff_voltage df).getD i default).Current_measured *
          specDelta ((trim cfg.disc_cutoff_voltage df).map DRow.Time) i| ∧
    (cycleCapacity (trim cfg.disc_cutoff_voltage df) ≤ cfg.min_capacity →
      processCycleHealth cfg battery_id cycle_number df = none) := by
  constructor
  · rw [cycleCapacity, deltaQs_sum]
  · intro hle
    simp only [processCycleHealth]
    rw [if_neg (not_lt.mpr hle)]

/-- The source's default configuration. -/
def cfgD : HealthConfig := ⟨20, 2, 7/5, 27/10⟩

/-- Witness for C3: the empty series has capacity 0, below the threshold, and
yields no rows. -/
theorem C3_capacity_integral_witness :
    processCycleHealth cfgD "B0005" 1 [] = none :=
  (C3_capacity_integral cfgD "B0005" 1 []).2 (by
    norm_num [cycleCapacity, deltaQs, trim, firstIdxBelow, timeDiffHr, diffs0, cfgD])

/-! ## Claim C10: the first sample's SoC is exactly 100 percent -/

lemma socs_head (rows : List DRow) (hne : rows ≠ []) :
    (socs rows).head? = some 100 := by
  cases rows with
  | nil => exact absurd rfl hne
  | cons r rest =>
    simp only [socs, cumsum, deltaQs, timeDiffHr, diffs0, List.map_cons,
      List.zipWith_cons_cons, cumsumFrom, List.head?_cons, Option.some.injEq]
    norm_num

/-- Claim C10: for every accepted discharge cycle with a non-empty trimmed
series, the per-sample SoC of the first sample is exactly 100, because the
first elapsed-time delta is 0. -/
theorem C10_first_sample_soc (cfg : HealthConfig) (battery_id : String)
    (cycle_number : ℕ) (df : List DRow) (out : List HealthSample)
    (_hacc : processCycleHealth cfg battery_id cycle_number df = some out)
    (hne : trim cfg.disc_cutoff_voltage df ≠ []) :
    (socs (trim cfg.disc_cutoff_voltage df)).head? = some 100 :=
  socs_head _ hne

/-- A concrete accepted discharge cycle: two samples one hour apart at a
constant 2 A discharge current, capacity 2 Ah. -/
def cfg2 : HealthConfig := ⟨2, 2, 7/5, 27/10⟩

/-- The two rows of the concrete accepted cycle. -/
def rowsW2 : List DRow := [⟨4, -2, 25, 0⟩, ⟨4, -2, 25, 3600⟩]

/-- The health group the concrete accepted cycle produces. -/
def lW : List HealthSample :=
  [⟨4, -2, 25, 100, 1, "B0005", 100⟩, ⟨4, -2, 25, 0, 1, "B0005", 100⟩]

lemma processCycleHealth_rowsW2 : processCycleHealth cfg2 "B0005" 1 rowsW2 = some lW := by
  norm_num [processCycleHealth, cfg2, rowsW2, lW, trim, firstIdxBelow, diffs0,
    timeDiffHr, deltaQs, cycleCapacity, cumsumFrom, cumsum, socs, augment,
    meanQ, aggBin, splitSizes, takeDrops, array_split, List.range_succ,
    List.filterMap_cons]

/-- Witness for C10 at the concrete accepted cycle. -/
theorem C10_first_sample_soc_witness :
    (socs (trim cfg2.disc_cutoff_voltage rowsW2)).head? = some 100 :=
  C10_first_sample_soc cfg2 "B0005" 1 rowsW2 lW processCycleHealth_rowsW2 (by
    have h : trim cfg2.disc_cutoff_voltage rowsW2 = rowsW2 := by
      norm_num [trim, firstIdxBelow, rowsW2, cfg2]
    rw [h]; simp [rowsW2])

/-! ## Claim C2: all-or-nothing emission with near-equal bins -/

lemma range_indicator_sum (k r c : ℕ) :
    ((List.range k).map (fun i => c + if i < r then 1 else 0)).sum
      = k * c + min r k := by
  induction k with
  | zero => simp
  | succ k ih =>
    rw [List.range_succ, List.map_append, List.sum_append, ih, Nat.succ_mul]
    simp only [List.map_cons, List.map_nil, List.sum_cons, List.sum_nil]
    by_cases h : k < r
    · rw [if_pos h]
      omega
    · rw [if_neg h]
      omega

lemma splitSizes_sum (n k : ℕ) (hk : 1 ≤ k) : (splitSizes n k).sum = n := by
  unfold splitSizes
  rw [range_indicator_sum, Nat.min_eq_left (le_of_lt (Nat.mod_lt n hk))]
  exact Nat.div_add_mod n k

lemma takeDrops_map_length {α : Type} (sizes : List ℕ) (l : List α)
    (h : sizes.sum ≤ l.length) :
    (takeDrops sizes l).map List.length = sizes := by
  induction sizes generalizing l with
  | nil => rfl
  | cons s ss ih =>
    simp only [List.sum_cons] at h
    simp only [takeDrops, List.map_cons]
    rw [List.length_take, Nat.min_eq_left (by omega)]
    rw [ih (l.drop s) (by rw [List.length_drop]; omega)]

lemma array_split_map_length {α : Type} (l : List α) (k : ℕ) (hk : 1 ≤ k) :
    (array_split l k).map List.length = splitSizes l.length k := by
  unfold array_split
  exact takeDrops_map_length _ _ (le_of_eq (splitSizes_sum _ _ hk))

lemma splitSizes_mem_bounds {n k s : ℕ} (h : s ∈ splitSizes n k) :
    n / k ≤ s ∧ s ≤ n / k + 1 := by
  unfold splitSizes at h
  rw [List.mem_map] at h
  obtain ⟨i, _, rfl⟩ := h
  split_ifs <;> omega

lemma filterMap_aggBin_length_le (bins : List (List HealthSample)) :
    (bins.filterMap aggBin).length ≤ (bins.map List.length).sum := by
  induction bins with
  | nil => simp
  | cons b bs ih =>
    cases b with
    | nil =>
      simp only [List.filterMap_cons, aggBin, List.map_cons, List.sum_cons]
      omega
    | cons x t =>
      simp only [List.filterMap_cons, aggBin, List.map_cons, List.sum_cons,
        List.length_cons]
      omega

/-- Lengths of the bins that the health stage partitions an accepted cycle's
augmented series into. -/
def binSizes (cfg : HealthConfig) (battery_id : String) (cycle_number : ℕ)
    (df : List DRow) : List ℕ :=
  (array_split
    (augment battery_id cycle_number
      (cycleCapacity (trim cfg.disc_cutoff_voltage df) / cfg.nominal_capacity * 100)
      (trim cfg.disc_cutoff_voltage df))
    cfg.num_bins).map List.length

/-- Claim C2: for every discharge cycle, the emitted group is all-or-nothing:
a `some` group has exactly `num_bins` rows and comes from a row-count
partition whose bin sizes differ pairwise by at most one; and a trimmed
series with fewer than `num_bins` rows yields no rows at all. -/
theorem C2_all_or_nothing (cfg : HealthConfig) (battery_id : String)
    (cycle_number : ℕ) (df : List DRow) (hk : 1 ≤ cfg.num_bins) :
    (∀ out, processCycleHealth cfg battery_id cycle_number df = some out →
      out.length = cfg.num_bins ∧
      ∀ a ∈ binSizes cfg battery_id cycle_number df,
        ∀ b ∈ binSizes cfg battery_id cycle_number df, a ≤ b + 1) ∧
    ((trim cfg.disc_cutoff_voltage df).length < cfg.num_bins →
      processCycleHealth cfg battery_id cycle_number df = none) := by
  constructor
  · intro out hout
    constructor
    · simp only [processCycleHealth] at hout
      split_ifs at hout with h1 h2
      · rw [Option.some.injEq] at hout
        rw [← hout]
        exact h2
    · intro a ha b hb
      rw [binSizes, array_split_map_length _ _ hk] at ha hb
      have hha := splitSizes_mem_bounds ha
      have hhb := splitSizes_mem_bounds hb
      omega
  · intro hlen
    simp only [processCycleHealth]
    split_ifs with h1 h2
    · exfalso
      have hle := filterMap_aggBin_length_le
        (array_split (augment battery_id cycle_number
          (cycleCapacity (trim cfg.disc_cutoff_voltage df) / cfg.nominal_capacity * 100)
          (trim cfg.disc_cutoff_voltage df)) cfg.num_bins)
      rw [array_split_map_length _ _ hk, splitSizes_sum _ _ hk, augment_length] at hle
      omega
    · rfl
    · rfl

/-- Witness for C2: with the default configuration, a 2-row series is shorter
than 20 bins and yields no rows. -/
theorem C2_all_or_nothing_witness :
    processCycleHealth cfgD "B0005" 1 rowsW2 = none :=
  (C2_all_or_nothing cfgD "B0005" 1 rowsW2 (by norm_num [cfgD])).2 (by
    have h : trim cfgD.disc_cutoff_voltage rowsW2 = rowsW2 := by
      norm_num [trim, firstIdxBelow, rowsW2, cfgD]
    rw [h]; norm_num [rowsW2, cfgD])

/-! ## Claim C7: the SoH scalar is shared by the whole group -/

lemma exists_of_mem_zipWith {α β γ : Type} {f : α → β → γ} {as : List α}
    {bs : List β} {x : γ} (h : x ∈ List.zipWith f as bs) :
    ∃ a b, a ∈ as ∧ b ∈ bs ∧ x = f a b := by
  induction as generalizing bs with
  | nil => simp at h
  | cons a as ih =>
    cases bs with
    | nil => simp at h
    | cons b bs =>
      rw [List.zipWith_cons_cons] at h
      rcases List.mem_cons.mp h with h | h
      · exact ⟨a, b, by simp, by simp, h⟩
      · obtain ⟨a', b', ha, hb, hx⟩ := ih h
        exact ⟨a', b', List.mem_cons_of_mem _ ha, List.mem_cons_of_mem _ hb, hx⟩

lemma mem_takeDrops_subset {α : Type} (sizes : List ℕ) (l b : List α)
    (hb : b ∈ takeDrops sizes l) : ∀ x ∈ b, x ∈ l := by
  induction sizes generalizing l with
  | nil => simp [takeDrops] at hb
  | cons s ss ih =>
    simp only [takeDrops, List.mem_cons] at hb
    rcases hb with rfl | hb
    · exact fun x hx => List.take_subset s l hx
    · exact fun x hx => List.drop_subset s l (ih (l.drop s) hb x hx)

lemma augment_soh (battery_id : String) (cycle_number : ℕ) (soh : ℚ)
    (rows : List DRow) : ∀ x ∈ augment battery_id cycle_number soh rows,
      x.SoH = soh := by
  intro x hx
  obtain ⟨r, soc, -, -, rfl⟩ := exists_of_mem_zipWith hx
  rfl

/-- Claim C7: every row of an accepted discharge cycle's emitted group carries
the same SoH value, namely the cycle's capacity over the nominal capacity,
times 100. -/
theorem C7_soh_scalar (cfg : HealthConfig) (battery_id : String)
    (cycle_number : ℕ) (df : List DRow) (out : List HealthSample)
    (h : processCycleHealth cfg battery_id cycle_number df = some out) :
    ∀ s ∈ out, s.SoH =
      cycleCapacity (trim cfg.disc_cutoff_voltage df) / cfg.nominal_capacity * 100 := by
  intro s hs
  simp only [processCycleHealth] at h
  split_ifs at h with h1 h2
  rw [Option.some.injEq] at h
  rw [← h] at hs
  rw [List.mem_filterMap] at hs
  obtain ⟨bin, hbin, hagg⟩ := hs
  cases bin with
  | nil => simp [aggBin] at hagg
  | cons x t =>
    have hsoh : s.SoH = x.SoH := by
      simp only [aggBin, Option.some.injEq] at hagg
      rw [← hagg]
    have hxmem : x ∈ augment battery_id cycle_number
        (cycleCapacity (trim cfg.disc_cutoff_voltage df) / cfg.nominal_capacity * 100)
        (trim cfg.disc_cutoff_voltage df) := by
      unfold array_split at hbin
      exact mem_takeDrops_subset _ _ _ hbin x (by simp)
    rw [hsoh]
    exact augment_soh _ _ _ _ x hxmem

/-- Witness for C7 at the concrete accepted cycle: the first emitted row's SoH
is the capacity-over-nominal percentage. -/
theorem C7_soh_scalar_witness :
    (⟨4, -2, 25, 100, 1, "B0005", 100⟩ : HealthSample).SoH =
      cycleCapacity (trim cfg2.disc_cutoff_voltage rowsW2) / cfg2.nominal_capacity * 100 :=
  C7_soh_scalar cfg2 "B0005" 1 rowsW2 lW processCycleHealth_rowsW2
    ⟨4, -2, 25, 100, 1, "B0005", 100⟩ (by simp [lW])

/-! ## Claim C9: per-cycle error containment in the health stage -/

lemma compute_battery_health_logs (cfg : HealthConfig) (output_path : String)
    (entries : List CycleEntry) :
    (compute_battery_health cfg output_path entries).logs = errorLogs entries := by
  simp only [compute_battery_health]
  split <;> rfl

/-- Claim C9: an error raised for one cycle is logged together with that
cycle's filename and does not affect the groups computed for the other
cycles; and the artifact is absent exactly when no cycle was accepted, which
is exactly when the run reports the distinct no-valid-files message. -/
theorem C9_error_containment (cfg : HealthConfig) (output_path : String)
    (xs ys : List CycleEntry) (e : CycleEntry) (msg : String)
    (h : e.table = .error msg) :
    ("Error processing " ++ e.filename ++ ": " ++ msg)
        ∈ (compute_battery_health cfg output_path (xs ++ e :: ys)).logs ∧
    acceptedGroups cfg (xs ++ e :: ys) = acceptedGroups cfg (xs ++ ys) ∧
    (compute_battery_health cfg output_path (xs ++ e :: ys)).artifact
      = (compute_battery_health cfg output_path (xs ++ ys)).artifact ∧
    ∀ entries : List CycleEntry,
      ((compute_battery_health cfg output_path entries).artifact = none ↔
        acceptedGroups cfg entries = []) ∧
      ((compute_battery_health cfg output_path entries).artifact = none ↔
        (compute_battery_health cfg output_path entries).message
          = "No valid files found!") := by
  have hgroups : acceptedGroups cfg (xs ++ e :: ys) = acceptedGroups cfg (xs ++ ys) := by
    simp only [acceptedGroups, List.filterMap_append, List.filterMap_cons, h]
  refine ⟨?_, hgroups, ?_, ?_⟩
  · rw [compute_battery_health_logs]
    simp only [errorLogs, List.filterMap_append]
    apply List.mem_append_right
    simp only [List.filterMap_cons, h]
    exact List.mem_cons_self _ _
  · simp only [compute_battery_health, hgroups]
    split <;> rfl
  · intro entries
    simp only [compute_battery_health]
    by_cases hempty : (acceptedGroups cfg entries).isEmpty
    · rw [if_pos hempty]
      simp only [List.isEmpty_iff] at hempty
      simp [hempty]
    · rw [if_neg hempty]
      simp only [List.isEmpty_iff] at hempty
      have hmsg : ("Saved processed dataset to " ++ output_path)
          ≠ "No valid files found!" := by
        intro heq
        have hlen := congrArg String.length heq
        rw [String.length_append] at hlen
        have h1 : ("Saved processed dataset to " : String).length = 27 := rfl
        have h2 : ("No valid files found!" : String).length = 21 := rfl
        omega
      simp [hempty, hmsg]

/-- A concrete entry whose load fails. -/
def eBad : CycleEntry := ⟨"00007.csv", "B0005", 1, .error "boom"⟩

/-- Witness for C9: the failing entry's diagnostic appears in the logs. -/
theorem C9_error_containment_witness :
    ("Error processing 00007.csv: boom")
        ∈ (compute_battery_health cfgD "out.csv" [eBad]).logs :=
  (C9_error_containment cfgD "out.csv" [] [] eBad "boom" rfl).1

/-! ## Claim C5: the timestamp formatter -/

/-- Claim C5: the formatter maps the vector 2008, 4, 2, 0, 0, 0 to exactly the
bracketed dot-separated string with the first five components as integers and
the sixth with three decimal digits; and every input that is not a list of
exactly six numeric components yields the sentinel. -/
theorem C5_format_time :
    format_matlab_time
      (.ofList [.num 2008, .num 4, .num 2, .num 0, .num 0, .num 0])
        = "[2008. 4. 2. 0. 0. 0.000]" ∧
    ∀ t, isSixNums t = false → format_matlab_time t = "[]" := by
  constructor
  · have h0 : fmtFixed0 2008 = "2008" := by
      norm_num [fmtFixed0, roundHalfEven, ratFloor]
      rfl
    have h4 : fmtFixed0 4 = "4" := by
      norm_num [fmtFixed0, roundHalfEven, ratFloor]
      rfl
    have h2 : fmtFixed0 2 = "2" := by
      norm_num [fmtFixed0, roundHalfEven, ratFloor]
      rfl
    have hz : fmtFixed0 0 = "0" := by
      norm_num [fmtFixed0, roundHalfEven, ratFloor]
      rfl
    have hz3 : fmtFixed3 0 = "0.000" := by
      norm_num [fmtFixed3, roundHalfEven, ratFloor, pad3]
      rfl
    simp only [format_matlab_time, fmtComp0, fmtComp3, h0, h4, h2, hz, hz3]
    rfl
  · intro t ht
    cases t with
    | nonList => rfl
    | ofList l =>
      rcases l with _ | ⟨v0, _ | ⟨v1, _ | ⟨v2, _ | ⟨v3, _ | ⟨v4, _ | ⟨v5, _ | ⟨v6, rest⟩⟩⟩⟩⟩⟩⟩
      · rfl
      · rfl
      · rfl
      · rfl
      · rfl
      · rfl
      · cases v0 <;> cases v1 <;> cases v2 <;> cases v3 <;> cases v4 <;> cases v5 <;>
          simp_all [isSixNums, format_matlab_time, fmtComp0, fmtComp3]
      · rfl

/-- Witness for C5: the empty list is not a 6-component numeric vector and
degrades to the sentinel. -/
theorem C5_format_time_witness : format_matlab_time (.ofList []) = "[]" :=
  C5_format_time.2 (.ofList []) rfl

/-! ## Claim C6: the persisted table's shape -/

/-- Maximum column length of the declared fields over the cycle's data. -/
def maxFieldLen (data : String → Option (List ℚ)) (fields : List String) : ℕ :=
  (fields.map (fun name => ((data name).getD []).length)).foldl max 0

lemma foldl_max_init_le (l : List ℕ) (a : ℕ) : a ≤ l.foldl max a := by
  induction l generalizing a with
  | nil => simp
  | cons x xs ih => exact le_trans (le_max_left a x) (ih (max a x))

lemma le_foldl_max (l : List ℕ) (a x : ℕ) (hx : x ∈ l) : x ≤ l.foldl max a := by
  induction l generalizing a with
  | nil => simp at hx
  | cons y ys ih =>
    rcases List.mem_cons.mp hx with rfl | h
    · exact le_trans (le_max_right a x) (foldl_max_init_le ys (max a x))
    · exact ih _ h

lemma rectangularize_maxlen (data : String → Option (List ℚ)) (fields : List String) :
    ((fields.map (fun name => (name, (data name).getD []))).foldl
      (fun m p => max m p.2.length) 0) = maxFieldLen data fields := by
  rw [maxFieldLen, List.foldl_map, List.foldl_map]

lemma rectangularize_fst (data : String → Option (List ℚ)) (fields : List String) :
    (rectangularize data fields).map Prod.fst = fields := by
  simp [rectangularize, List.map_map, Function.comp_def]

lemma mem_rectangularize {data : String → Option (List ℚ)} {fields : List String}
    {p : String × List Cell} (hp : p ∈ rectangularize data fields) :
    ∃ name ∈ fields, p = (name,
      ((data name).getD []).map Cell.num ++
        List.replicate (maxFieldLen data fields - ((data name).getD []).length)
          Cell.pad) := by
  simp only [rectangularize, List.map_map, List.mem_map, Function.comp_def] at hp
  obtain ⟨name, hname, rfl⟩ := hp
  exact ⟨name, hname, by rw [rectangularize_maxlen]⟩

lemma field_len_le_max (data : String → Option (List ℚ)) (fields : List String)
    (name : String) (hname : name ∈ fields) :
    ((data name).getD []).length ≤ maxFieldLen data fields :=
  le_foldl_max _ 0 _ (List.mem_map.mpr ⟨name, hname, rfl⟩)

/-- Claim C6: a successfully-serialized cycle's table has exactly its type's
declared field list as columns, in declared order; every column is present
(an absent field contributing an empty sequence), and every column is the
field's values right-padded with the sentinel up to the maximum column
length, so all columns have equal length. -/
theorem C6_table_shape (cycle : RawCycle) (cycle_type : String)
    (tbl : List (String × List Cell))
    (h : process_cycle_data cycle cycle_type = some tbl) :
    ∃ fields, fieldsFor cycle_type = some fields ∧
      (cycle_type = "charge" ∨ cycle_type = "discharge" ∨ cycle_type = "impedance") ∧
      tbl.map Prod.fst = fields ∧
      (∀ p ∈ tbl, p.2.length = maxFieldLen cycle.data fields) ∧
      (∀ p ∈ tbl, p.2 = ((cycle.data p.1).getD []).map Cell.num ++
        List.replicate
          (maxFieldLen cycle.data fields - ((cycle.data p.1).getD []).length)
          Cell.pad) := by
  simp only [process_cycle_data] at h
  split_ifs at h with hdata
  rcases hf : fieldsFor cycle_type with - | fields
  · rw [hf] at h
    simp at h
  · rw [hf] at h
    rw [Option.some.injEq] at h
    subst h
    have hknown : cycle_type = "charge" ∨ cycle_type = "discharge" ∨
        cycle_type = "impedance" := by
      by_contra hall
      push_neg at hall
      obtain ⟨hc, hd, hi⟩ := hall
      simp [fieldsFor, hc, hd, hi] at hf
    refine ⟨fields, rfl, hknown, rectangularize_fst _ _, ?_, ?_⟩
    · intro p hp
      obtain ⟨name, hname, rfl⟩ := mem_rectangularize hp
      have hle := field_len_le_max cycle.data fields name hname
      simp [List.length_replicate]
      omega
    · intro p hp
      obtain ⟨name, hname, rfl⟩ := mem_rectangularize hp
      rfl

/-- A charge cycle whose data container holds only the Time field. -/
def cycleGood : RawCycle :=
  ⟨"charge", .nonList, 24, true, fun name => if name = "Time" then some [0] else none⟩

/-- The table the data of `cycleGood` produces under the discharge field list. -/
def tblW : List (String × List Cell) :=
  [("Voltage_measured", [Cell.pad]), ("Current_measured", [Cell.pad]),
   ("Temperature_measured", [Cell.pad]), ("Current_load", [Cell.pad]),
   ("Voltage_load", [Cell.pad]), ("Time", [Cell.num 0])]

/-- Witness for C6: the concrete table's columns are exactly the declared
discharge fields, in order. -/
theorem C6_table_shape_witness : tblW.map Prod.fst = discharge_fields := by
  obtain ⟨fields, hf, -, hmap, -, -⟩ :=
    C6_table_shape cycleGood "discharge" tblW rfl
  exact hmap.trans (Option.some.inj hf).symm

/-! ## Claims C1 and C8: the global identifier across skips and runs -/

lemma processCycleExtract_ok {battery_id : String} {test_id file_id : ℕ}
    {cycle : RawCycle}
    {out : Option (String × List (String × List Cell)) × MetadataRow}
    (h : processCycleExtract battery_id test_id file_id cycle = .ok out) :
    out.2.uid = file_id ∧ out.2.test_id = test_id := by
  simp only [processCycleExtract] at h
  split at h
  · simp at h
  · simp at h
  · simp at h
  · rw [Except.ok.injEq] at h
    rw [← h]
    exact ⟨rfl, rfl⟩

lemma processCyclesLoop_spec (battery_id : String) (cycles : List RawCycle)
    (test_id file_id : ℕ) (fs : List (String × List (String × List Cell)))
    (rows : List MetadataRow) (fid : ℕ)
    (h : processCyclesLoop battery_id cycles test_id file_id = .ok (fs, rows, fid)) :
    fid = file_id + cycles.length ∧ rows.length = cycles.length ∧
      rows.map MetadataRow.uid = List.range' file_id cycles.length := by
  induction cycles generalizing test_id file_id fs rows fid with
  | nil =>
    simp only [processCyclesLoop, Except.ok.injEq, Prod.mk.injEq] at h
    obtain ⟨-, rfl, rfl⟩ := h
    simp
  | cons c rest ih =>
    simp only [processCyclesLoop] at h
    cases he : processCycleExtract battery_id test_id file_id c with
    | error e =>
      rw [he] at h
      simp at h
    | ok pr =>
      rw [he] at h
      obtain ⟨tbl, row⟩ := pr
      cases hl : processCyclesLoop battery_id rest (test_id + 1) (file_id + 1) with
      | error e =>
        rw [hl] at h
        simp at h
      | ok triple =>
        rw [hl] at h
        obtain ⟨fs1, rows1, fid1⟩ := triple
        simp only [Except.ok.injEq, Prod.mk.injEq] at h
        obtain ⟨-, hrows, hfid⟩ := h
        obtain ⟨hfid1, hlen1, huid1⟩ := ih (test_id + 1) (file_id + 1) fs1 rows1 fid1 hl
        have hrowuid := (processCycleExtract_ok he).1
        subst hrows
        refine ⟨by simp; omega, by simp [hlen1], ?_⟩
        rw [List.map_cons, huid1, hrowuid]
        rfl

/-- A cycle whose record has no data container: its table is skipped. -/
def cycleNoData : RawCycle := ⟨"charge", .nonList, 24, false, fun _ => none⟩

/-- Claim C1 counterexample: in a corpus whose first cycle is skipped (missing
data container) and whose second cycle is serialized, the skipped cycle still
consumes global identifier 1 and gets a metadata row, and the serialized cycle
is written as 00002.csv with identifier 2 — not the identifier the skipped
cycle would have had. -/
theorem C1_counterexample :
    (runExtraction [("B0005", [cycleNoData, cycleGood])] none).toOption.map
      (fun st => (st.file_id, st.files.map Prod.fst,
        st.metadata.map (fun p => (p.1, p.2.map MetadataRow.uid))))
      = some (3, ["00002.csv"], some (1, [1, 2])) := rfl

/-- Claim C1 (amended): every cycle of the extraction loop — including cycles
whose table is skipped for a missing data container or an unknown type —
consumes exactly one global identifier and appends exactly one metadata row,
so the counter advances by the number of cycles and the appended rows carry
the consecutive identifiers starting at the incoming counter value. -/
theorem C1_id_always_consumed (battery_id : String) (cycles : List RawCycle)
    (test_id file_id : ℕ) (fs : List (String × List (String × List Cell)))
    (rows : List MetadataRow) (fid : ℕ)
    (h : processCyclesLoop battery_id cycles test_id file_id = .ok (fs, rows, fid)) :
    fid = file_id + cycles.length ∧ rows.length = cycles.length ∧
      rows.map MetadataRow.uid = List.range' file_id cycles.length :=
  processCyclesLoop_spec battery_id cycles test_id file_id fs rows fid h

/-- The metadata row the skipped cycle appends. -/
def rowC : MetadataRow :=
  ⟨"charge", "[]", 24, "B0005", 0, 1, "00001.csv", .empty, .empty, .empty⟩

/-- Witness for the amended C1: one skipped cycle advances the counter from 1
to 2 and appends one row with identifier 1. -/
theorem C1_id_always_consumed_witness :
    (2 : ℕ) = 1 + [cycleNoData].length ∧
      [rowC].length = [cycleNoData].length ∧
      [rowC].map MetadataRow.uid = List.range' 1 [cycleNoData].length :=
  C1_id_always_consumed "B0005" [cycleNoData] 0 1 [] [rowC] 2 rfl

lemma runExtractionFrom_spec (corpus : List (String × List RawCycle))
    (st st' : ExtractState) (hcnt : ℕ) (rows0 : List MetadataRow)
    (hm : st.metadata = some (hcnt, rows0))
    (h : runExtractionFrom corpus st = .ok st') :
    ∃ new : List MetadataRow,
      st'.metadata = some (hcnt, rows0 ++ new) ∧
      new.map MetadataRow.uid = List.range' st.file_id new.length ∧
      st'.file_id = st.file_id + new.length := by
  induction corpus generalizing st rows0 with
  | nil =>
    simp only [runExtractionFrom, Except.ok.injEq] at h
    subst h
    exact ⟨[], by simp [hm], by simp, by simp⟩
  | cons bc rest ih =>
    obtain ⟨battery_id, cycles⟩ := bc
    simp only [runExtractionFrom] at h
    cases hp : process_metadata_and_cycles cycles battery_id st with
    | error e =>
      rw [hp] at h
      simp at h
    | ok st1 =>
      rw [hp] at h
      simp only [process_metadata_and_cycles] at hp
      cases hl : processCyclesLoop battery_id cycles 0 st.file_id with
      | error e =>
        rw [hl] at hp
        simp at hp
      | ok triple =>
        rw [hl] at hp
        obtain ⟨fs1, rows1, fid1⟩ := triple
        rw [Except.ok.injEq] at hp
        obtain ⟨hfid1, hlen1, huid1⟩ :=
          processCyclesLoop_spec battery_id cycles 0 st.file_id fs1 rows1 fid1 hl
        have hst1meta : st1.metadata = some (hcnt, rows0 ++ rows1) := by
          rw [← hp]
          simp [appendMetadata, hm]
        have hst1fid : st1.file_id = st.file_id + cycles.length := by
          rw [← hp]
          exact hfid1
        obtain ⟨new2, h2meta, h2uid, h2fid⟩ := ih st1 (rows0 ++ rows1) hst1meta h
        refine ⟨rows1 ++ new2, ?_, ?_, ?_⟩
        · rw [h2meta, List.append_assoc]
        · rw [List.map_append, huid1, h2uid, hst1fid, ← hlen1]
          rw [List.length_append, Nat.add_comm rows1.length new2.length]
          exact List.range'_append_1 st.file_id rows1.length new2.length
        · rw [h2fid, hst1fid, ← hlen1, List.length_append]
          omega

/-- A one-battery, one-cycle corpus. -/
def corpusOne : List (String × List RawCycle) := [("B0005", [cycleNoData])]

/-- Claim C8 counterexample: running extraction twice over the same corpus —
the second run against the metadata artifact the first run produced — appends
to the artifact without a second header, but the second run's row again
carries global identifier 1: the counter restarted instead of continuing, so
identifiers are not unique across runs. -/
theorem C8_counterexample :
    ((runExtraction corpusOne none).toOption.bind (fun st1 =>
      (runExtraction corpusOne st1.metadata).toOption.map (fun st2 =>
        st2.metadata.map (fun p => (p.1, p.2.map MetadataRow.uid)))))
      = some (some (1, [1, 1])) := rfl

/-- Claim C8 (amended): re-running extraction against an existing metadata
artifact appends the new rows without writing a second header (the header
count of the artifact is unchanged), but the module-level counter restarts at
1 on every run, so the appended rows carry identifiers 1, 2, ... — strictly
increasing within the run but reused across runs. -/
theorem C8_rerun_appends_but_counter_restarts
    (corpus : List (String × List RawCycle)) (hcnt : ℕ)
    (rows0 : List MetadataRow) (st' : ExtractState)
    (h : runExtraction corpus (some (hcnt, rows0)) = .ok st') :
    ∃ new : List MetadataRow,
      st'.metadata = some (hcnt, rows0 ++ new) ∧
      new.map MetadataRow.uid = List.range' 1 new.length :=
  match runExtractionFrom_spec corpus ⟨1, [], some (hcnt, rows0)⟩ st' hcnt rows0
      rfl h with
  | ⟨new, hmeta, huid, _⟩ => ⟨new, hmeta, huid⟩

/-- Witness for the amended C8: a second run over the one-cycle corpus against
the first run's artifact keeps its single header and appends one row whose
identifier restarts at 1. -/
theorem C8_rerun_witness :
    ∃ new : List MetadataRow,
      (⟨2, [], some (1, [rowC, rowC])⟩ : ExtractState).metadata
        = some (1, [rowC] ++ new) ∧
      new.map MetadataRow.uid = List.range' 1 new.length :=
  C8_rerun_appends_but_counter_restarts corpusOne 1 [rowC]
    ⟨2, [], some (1, [rowC, rowC])⟩ rfl
